import Mathlib

/-!
Shallow embedding of the sliding-window document pipeline
(`markdown_to_transcript.py`, `transcript_to_expansion.py`, `pipeline.py`).

The windower `split_into_windows` is a Python `while` loop whose cursor
advances by `min(window_size, remaining)` lines per iteration; we embed it
as a fuel-indexed loop `splitLoop` (`none` models non-termination: the
Python loop makes no progress when `window_size = 0`, so no finite fuel
completes it) together with a well-founded recursion `windowsFrom` that
agrees with the loop whenever `window_size` is positive.
-/

namespace BasicPapers

/-- Python `str.strip()`: the string without its leading and trailing
whitespace, computed on the character list so that the kernel can
evaluate it. -/
def pyStrip (s : String) : String :=
  ⟨((s.data.dropWhile Char.isWhitespace).reverse.dropWhile Char.isWhitespace).reverse⟩

/-- Helper for `pySplitNewline`: the accumulator holds the characters of
the current piece in reverse. -/
def splitNewlineAux : List Char → List Char → List String
  | [], acc => [⟨acc.reverse⟩]
  | c :: rest, acc =>
    if c = '\n' then ⟨acc.reverse⟩ :: splitNewlineAux rest []
    else splitNewlineAux rest (c :: acc)

/-- Python `content.split('\n')`: pieces between newline characters; a
trailing newline leaves a final empty piece, and the empty string yields
one empty piece. -/
def pySplitNewline (s : String) : List String :=
  splitNewlineAux s.data []

/-- A window as built by `split_into_windows`: the tuple
`(start_idx, end_idx, lines[start_idx:end_idx])`. -/
structure Window where
  start_idx : Nat
  end_idx : Nat
  window_lines : List String
deriving DecidableEq

/-- Fuel-indexed embedding of the `while start_idx < total_lines` loop of
`split_into_windows`. Each iteration computes
`end_idx = min(start_idx + window_size, total_lines)`, appends the window
`(start_idx, end_idx, lines[start_idx:end_idx])` and sets
`start_idx = end_idx`. `none` means the fuel ran out before the loop
condition became false. -/
def splitLoop (lines : List String) (window_size : Nat) :
    Nat → Nat → Option (List Window)
  | 0, _ => none
  | fuel + 1, start_idx =>
    if start_idx < lines.length then
      let end_idx := min (start_idx + window_size) lines.length
      match splitLoop lines window_size fuel end_idx with
      | some rest =>
          some ({ start_idx := start_idx, end_idx := end_idx,
                  window_lines := (lines.drop start_idx).take (end_idx - start_idx) } :: rest)
      | none => none
    else
      some []

/-- `split_into_windows(lines, window_size)`, run with enough fuel for any
terminating execution: with a positive `window_size` the cursor advances by
at least one line per iteration, so `lines.length + 1` steps always reach
the exit condition. -/
def splitIntoWindows (lines : List String) (window_size : Nat) : Option (List Window) :=
  splitLoop lines window_size (lines.length + 1) 0

/-- The window list emitted by the loop of `split_into_windows` from cursor
position `start_idx`, as a well-founded recursion (defined for a positive
`window_size`, where the loop terminates). -/
def windowsFrom (lines : List String) (window_size : Nat) (start_idx : Nat) :
    List Window :=
  if h : start_idx < lines.length ∧ 0 < window_size then
    let end_idx := min (start_idx + window_size) lines.length
    { start_idx := start_idx, end_idx := end_idx,
      window_lines := (lines.drop start_idx).take (end_idx - start_idx) }
      :: windowsFrom lines window_size end_idx
  else []
termination_by lines.length - start_idx
decreasing_by
  have h1 : start_idx < min (start_idx + window_size) lines.length :=
    lt_min (Nat.lt_add_of_pos_right h.2) h.1
  exact Nat.sub_lt_sub_left h.1 h1

/-- Concatenation of the line sequences of a window list. -/
def windowsLines (w : List Window) : List String :=
  (w.map Window.window_lines).flatten

/-- The ranges of a window list tile the half-open interval from the cursor
to `L`: each window starts at the cursor, covers a non-empty range inside
the document, and hands the cursor to its successor; the last cursor is `L`. -/
def tilesFrom (L : Nat) : Nat → List Window → Prop
  | s, [] => s = L
  | s, w :: rest => w.start_idx = s ∧ s < w.end_idx ∧ w.end_idx ≤ L ∧ tilesFrom L w.end_idx rest

theorem windowsFrom_nil (lines : List String) (window_size : Nat) (start_idx : Nat)
    (h : ¬ (start_idx < lines.length ∧ 0 < window_size)) :
    windowsFrom lines window_size start_idx = [] := by
  rw [windowsFrom]
  simp [h]

theorem windowsFrom_cons (lines : List String) (window_size : Nat) (start_idx : Nat)
    (h : start_idx < lines.length) (hw : 0 < window_size) :
    windowsFrom lines window_size start_idx =
      { start_idx := start_idx,
        end_idx := min (start_idx + window_size) lines.length,
        window_lines := (lines.drop start_idx).take
          (min (start_idx + window_size) lines.length - start_idx) }
        :: windowsFrom lines window_size (min (start_idx + window_size) lines.length) := by
  rw [windowsFrom]
  simp [h, hw]

theorem splitLoop_eq_windowsFrom (lines : List String) (window_size : Nat)
    (hw : 0 < window_size) :
    ∀ fuel start_idx, lines.length - start_idx < fuel →
      splitLoop lines window_size fuel start_idx =
        some (windowsFrom lines window_size start_idx) := by
  intro fuel
  induction fuel with
  | zero => intro s h; omega
  | succ fuel ih =>
    intro s h
    by_cases hs : s < lines.length
    · have hadv : s < min (s + window_size) lines.length :=
        lt_min (Nat.lt_add_of_pos_right hw) hs
      have hfuel : lines.length - min (s + window_size) lines.length < fuel := by
        omega
      rw [splitLoop]
      simp only [hs, if_true]
      rw [ih _ hfuel, windowsFrom_cons lines window_size s hs hw]
    · rw [splitLoop]
      simp only [hs, if_false]
      rw [windowsFrom_nil lines window_size s (by tauto)]

theorem splitIntoWindows_eq (lines : List String) (window_size : Nat)
    (hw : 0 < window_size) :
    splitIntoWindows lines window_size = some (windowsFrom lines window_size 0) :=
  splitLoop_eq_windowsFrom lines window_size hw _ 0 (by omega)

theorem windowsFrom_tiles (lines : List String) (window_size : Nat)
    (hw : 0 < window_size) :
    ∀ fuel start_idx, lines.length - start_idx ≤ fuel → start_idx ≤ lines.length →
      tilesFrom lines.length start_idx (windowsFrom lines window_size start_idx) := by
  intro fuel
  induction fuel with
  | zero =>
    intro s h hs
    have hsL : s = lines.length := by omega
    rw [windowsFrom_nil lines window_size s (by omega)]
    exact hsL
  | succ fuel ih =>
    intro s h hs
    by_cases hlt : s < lines.length
    · have hadv : s < min (s + window_size) lines.length :=
        lt_min (Nat.lt_add_of_pos_right hw) hlt
      rw [windowsFrom_cons lines window_size s hlt hw]
      simp only [tilesFrom]
      refine ⟨trivial, hadv, min_le_right _ _, ?_⟩
      exact ih _ (by omega) (min_le_right _ _)
    · rw [windowsFrom_nil lines window_size s (by tauto)]
      exact le_antisymm hs (by omega)

theorem windowsFrom_length (lines : List String) (window_size : Nat)
    (hw : 0 < window_size) :
    ∀ fuel start_idx, lines.length - start_idx ≤ fuel →
      (windowsFrom lines window_size start_idx).length =
        (lines.length - start_idx + window_size - 1) / window_size := by
  intro fuel
  induction fuel with
  | zero =>
    intro s h
    rw [windowsFrom_nil lines window_size s (by omega)]
    have : lines.length - s = 0 := by omega
    rw [this]
    simp [Nat.div_eq_of_lt, Nat.sub_lt hw]
  | succ fuel ih =>
    intro s h
    by_cases hlt : s < lines.length
    · rw [windowsFrom_cons lines window_size s hlt hw]
      have hadv : s < min (s + window_size) lines.length :=
        lt_min (Nat.lt_add_of_pos_right hw) hlt
      rw [List.length_cons, ih _ (by omega)]
      rcases le_or_lt (s + window_size) lines.length with hle | hgt
      · have hmin : min (s + window_size) lines.length = s + window_size :=
          min_eq_left hle
        rw [hmin]
        have h1 : lines.length - s + window_size - 1 =
            (lines.length - (s + window_size) + window_size - 1) + window_size := by
          omega
        rw [h1, Nat.add_div_right _ hw]
      · have hmin : min (s + window_size) lines.length = lines.length :=
          min_eq_right (le_of_lt hgt)
        rw [hmin]
        have h0 : lines.length - lines.length = 0 := by omega
        rw [h0]
        have hz : (0 + window_size - 1) / window_size = 0 := by
          exact Nat.div_eq_of_lt (by omega)
        rw [hz]
        have hone : (lines.length - s + window_size - 1) / window_size = 1 :=
          Nat.div_eq_of_lt_le (by omega) (by omega)
        omega
    · rw [windowsFrom_nil lines window_size s (by tauto)]
      have : lines.length - s = 0 := by omega
      rw [this]
      simp [Nat.div_eq_of_lt, Nat.sub_lt hw]

theorem windowsFrom_flatten (lines : List String) (window_size : Nat)
    (hw : 0 < window_size) :
    ∀ fuel start_idx, lines.length - start_idx ≤ fuel →
      windowsLines (windowsFrom lines window_size start_idx) = lines.drop start_idx := by
  intro fuel
  induction fuel with
  | zero =>
    intro s h
    rw [windowsFrom_nil lines window_size s (by omega)]
    rw [List.drop_eq_nil_of_le (by omega)]
    rfl
  | succ fuel ih =>
    intro s h
    by_cases hlt : s < lines.length
    · have hadv : s < min (s + window_size) lines.length :=
        lt_min (Nat.lt_add_of_pos_right hw) hlt
      rw [windowsFrom_cons lines window_size s hlt hw]
      have hstep : windowsLines
          ({ start_idx := s, end_idx := min (s + window_size) lines.length,
             window_lines := (lines.drop s).take
               (min (s + window_size) lines.length - s) }
            :: windowsFrom lines window_size (min (s + window_size) lines.length)) =
          (lines.drop s).take (min (s + window_size) lines.length - s) ++
            windowsLines (windowsFrom lines window_size
              (min (s + window_size) lines.length)) := by
        simp [windowsLines]
      rw [hstep, ih _ (by omega)]
      have hdd : lines.drop (min (s + window_size) lines.length) =
          (lines.drop s).drop (min (s + window_size) lines.length - s) := by
        rw [List.drop_drop]
        congr 1
        omega
      rw [hdd, List.take_append_drop]
    · rw [windowsFrom_nil lines window_size s (by tauto)]
      rw [List.drop_eq_nil_of_le (by omega)]
      rfl

theorem windowsFrom_sizes (lines : List String) (window_size : Nat)
    (hw : 0 < window_size) :
    ∀ fuel start_idx, lines.length - start_idx ≤ fuel →
      ∀ w ∈ windowsFrom lines window_size start_idx,
        w.start_idx < w.end_idx ∧ w.end_idx ≤ lines.length ∧
        w.window_lines.length = w.end_idx - w.start_idx ∧
        w.window_lines.length ≤ window_size := by
  intro fuel
  induction fuel with
  | zero =>
    intro s h w hmem
    rw [windowsFrom_nil lines window_size s (by omega)] at hmem
    exact absurd hmem (List.not_mem_nil w)
  | succ fuel ih =>
    intro s h w hmem
    by_cases hlt : s < lines.length
    · have hadv : s < min (s + window_size) lines.length :=
        lt_min (Nat.lt_add_of_pos_right hw) hlt
      rw [windowsFrom_cons lines window_size s hlt hw] at hmem
      rcases List.mem_cons.mp hmem with heq | htail
      · subst heq
        have hlen : ((lines.drop s).take
            (min (s + window_size) lines.length - s)).length =
            min (s + window_size) lines.length - s := by
          rw [List.length_take, List.length_drop]
          omega
        refine ⟨hadv, min_le_right _ _, hlen, ?_⟩
        rw [hlen]
        omega
      · exact ih _ (by omega) w htail
    · rw [windowsFrom_nil lines window_size s (by tauto)] at hmem
      exact absurd hmem (List.not_mem_nil w)

theorem tilesFrom_zip (L : Nat) :
    ∀ (w : List Window) (s : Nat), tilesFrom L s w →
      ∀ p ∈ w.zip w.tail, (p.1).end_idx = (p.2).start_idx := by
  intro w
  induction w with
  | nil => intro s _ p hp; simp at hp
  | cons a rest ih =>
    intro s ht p hp
    match rest, ht with
    | [], _ => simp at hp
    | b :: rest2, ⟨_, _, _, hb, _⟩ =>
      rcases List.mem_cons.mp hp with heq | htail
      · subst heq
        exact hb.symm
      · exact ih a.end_idx ⟨hb, ‹_›⟩ p htail

theorem tilesFrom_head (L : Nat) (s : Nat) (w : List Window) (ht : tilesFrom L s w) :
    ∀ a ∈ w.head?, a.start_idx = s := by
  match w, ht with
  | [], _ => intro a ha; simp at ha
  | b :: rest, ⟨hb, _⟩ =>
    intro a ha
    simp only [List.head?_cons, Option.mem_def, Option.some.injEq] at ha
    rw [← ha]
    exact hb

theorem tilesFrom_getLast (L : Nat) :
    ∀ (w : List Window) (s : Nat), tilesFrom L s w →
      (∀ a ∈ w.getLast?, a.end_idx = L) ∧ (w = [] → s = L) := by
  intro w
  induction w with
  | nil =>
    intro s ht
    exact ⟨by intro a ha; simp at ha, fun _ => ht⟩
  | cons a rest ih =>
    intro s ht
    obtain ⟨ha, hlt, hle, htail⟩ := ht
    refine ⟨?_, by intro h; cases h⟩
    intro b hb
    match rest, htail with
    | [], heq =>
      simp only [List.getLast?_singleton, Option.mem_def, Option.some.injEq] at hb
      rw [← hb]
      exact heq
    | c :: rest2, htail2 =>
      have hstep : (a :: c :: rest2).getLast? = (c :: rest2).getLast? := by
        simp [List.getLast?_cons_cons]
      rw [hstep] at hb
      exact (ih a.end_idx htail2).1 b hb

theorem windowsFrom_eq_nil_iff (lines : List String) (window_size : Nat)
    (hw : 0 < window_size) :
    windowsFrom lines window_size 0 = [] ↔ lines = [] := by
  constructor
  · intro h
    by_contra hne
    have hlt : 0 < lines.length := List.length_pos.mpr hne
    rw [windowsFrom_cons lines window_size 0 hlt hw] at h
    cases h
  · intro h
    subst h
    exact windowsFrom_nil [] window_size 0 (by simp)

theorem splitLoop_zero_none (lines : List String) :
    ∀ fuel start_idx, start_idx < lines.length →
      splitLoop lines 0 fuel start_idx = none := by
  intro fuel
  induction fuel with
  | zero => intro s h; rfl
  | succ fuel ih =>
    intro s h
    have hmin : min (s + 0) lines.length = s := by omega
    rw [splitLoop, if_pos h]
    simp only [hmin, ih s h]

/-!
Stage driver / stitcher. Both `convert_markdown_to_transcript` and
`convert_transcript_to_expansion` run the same accumulation loop over the
window list: call the transformer with the window index and the current
continuity string (`prev_transcript` / `prev_expansion`, initially `""`);
if the returned text is non-empty after `strip()` append the raw
(untrimmed) text to the parts list and store the raw text as the new
continuity string, otherwise keep the parts list and reset the continuity
string to `""`; finally write `"\n\n".join(parts)` to the output file.
The transformer is abstracted as a function of the window index and the
continuity string (the other prompt ingredients are fixed functions of the
index and the window list).
-/

/-- The loop state of a stage: the accumulated `transcript_parts` /
`expansion_parts` list and the continuity string `prev_transcript` /
`prev_expansion`. -/
structure DriverState where
  out_parts : List String
  prev_out : String
deriving DecidableEq

/-- State before window 0: no parts, continuity sentinel `""`. -/
def initState : DriverState := { out_parts := [], prev_out := "" }

/-- One iteration body, given the text `r` returned by the transformer:
`if r.strip(): parts.append(r); prev = r else: prev = ""`. -/
def stepResult (s : DriverState) (r : String) : DriverState :=
  if pyStrip r = "" then { out_parts := s.out_parts, prev_out := "" }
  else { out_parts := s.out_parts ++ [r], prev_out := r }

/-- The stage loop over a list of window indices, with a transformer that
always returns text. -/
def runWindows (T : Nat → String → String) : List Nat → DriverState → DriverState
  | [], s => s
  | i :: rest, s => runWindows T rest (stepResult s (T i s.prev_out))

/-- The texts returned by the transformer during a run of the loop, in
window order, starting from continuity string `prev`. -/
def resultsFrom (T : Nat → String → String) : List Nat → String → List String
  | [], _ => []
  | i :: rest, prev =>
    let r := T i prev
    r :: resultsFrom T rest (if pyStrip r = "" then "" else r)

/-- The texts returned by the transformer over a full stage run. -/
def stageResults (T : Nat → String → String) (windows : List Window) : List String :=
  resultsFrom T (List.range windows.length) ""

/-- The Output Document a stage writes: `"\n\n".join(parts)` after the loop. -/
def driveStage (T : Nat → String → String) (windows : List Window) : String :=
  String.intercalate "\n\n" (runWindows T (List.range windows.length) initState).out_parts

/-- The stage loop with a transformer that may raise (`Except.error`
models an uncaught Python exception from the completion call): the first
error aborts the loop. -/
def runWindowsE {ε : Type} (T : Nat → String → Except ε String) :
    List Nat → DriverState → Except ε DriverState
  | [], s => .ok s
  | i :: rest, s =>
    match T i s.prev_out with
    | .error e => .error e
    | .ok r => runWindowsE T rest (stepResult s r)

/-- A full stage run with a fallible transformer: the output document is
written (`Except.ok`) only if every window's call returned. -/
def stageRunE {ε : Type} (T : Nat → String → Except ε String)
    (windows : List Window) : Except ε String :=
  (runWindowsE T (List.range windows.length) initState).map
    (fun s => String.intercalate "\n\n" s.out_parts)

/-!
Per-stage input reading.

`convert_markdown_to_transcript` reads with `f.readlines()` and strips the
terminator of every line (`line.rstrip('\n')`); on a `'\n'`-terminated
file this equals splitting the content on `'\n'` and dropping the final
empty piece produced by a trailing terminator.

`convert_transcript_to_expansion` reads the whole file, splits on `'\n'`
(keeping a final empty piece for a trailing terminator) and then pops
trailing lines whose `strip()` is empty:
`while lines and not lines[-1].strip(): lines.pop()`.
-/

/-- Drop the last element of a line list when it is the empty piece a
trailing `'\n'` terminator leaves behind. -/
def dropLastIfEmpty (l : List String) : List String :=
  if l.getLast? = some "" then l.dropLast else l

/-- Lines of the markdown stage: `[line.rstrip('\n') for line in f.readlines()]`. -/
def mdLines (content : String) : List String :=
  dropLastIfEmpty (pySplitNewline content)

/-- The trailing-blank-popping loop of the expansion stage. -/
def stripTrailingBlankLines (l : List String) : List String :=
  (l.reverse.dropWhile (fun x => pyStrip x == "")).reverse

/-- Lines of the expansion stage: `content.split('\n')` followed by the
trailing-blank-popping loop. -/
def expLines (content : String) : List String :=
  stripTrailingBlankLines (pySplitNewline content)

/-!
Pipeline coordinator (`pipeline.py`). Module-scope configuration
constants, the skip-if-output-exists checks of `main`, and the call of
`run_transcript_to_expansion` into `convert_transcript_to_expansion`.
-/

/-- `TRANSCRIPT_MODEL` in `pipeline.py`. -/
def TRANSCRIPT_MODEL : String := "anthropic/claude-haiku-4.5"

/-- `EXPANSION_MODEL` in `pipeline.py`. -/
def EXPANSION_MODEL : String := "moonshotai/kimi-k2-thinking"

/-- The model identifier the transcript stage sends: `process_window` in
`markdown_to_transcript.py` passes its `model` argument through to
`client.chat.completions.create(model=model, ...)`. -/
def transcriptRequestModel (model : String) : String := model

/-- The model identifier the expansion stage sends: `process_window` in
`transcript_to_expansion.py` calls
`client.chat.completions.create(model="anthropic/claude-haiku-4.5", ...)`
with the identifier written literally, taking no model argument. -/
def expansionRequestModel : String := "anthropic/claude-haiku-4.5"

/-- A Python function signature: number of positional parameters and how
many of them carry defaults. -/
structure PySignature where
  param_count : Nat
  default_count : Nat
deriving DecidableEq

/-- Python accepts a positional call iff the argument count is between the
number of non-default parameters and the total parameter count. -/
def acceptsPositional (sig : PySignature) (nargs : Nat) : Bool :=
  decide (sig.param_count - sig.default_count ≤ nargs) &&
    decide (nargs ≤ sig.param_count)

/-- Outcome of a Python call: either a `TypeError` raised at the call site
(before any statement of the body runs) or entry into the body. -/
inductive CallOutcome
  | typeError
  | bodyEntered
deriving DecidableEq

/-- Python call semantics at the level of positional-argument counting. -/
def pythonCallOutcome (sig : PySignature) (nargs : Nat) : CallOutcome :=
  if acceptsPositional sig nargs then .bodyEntered else .typeError

/-- Signature of `convert_transcript_to_expansion(transcript_path,
output_path, window_size=3)`: three parameters, one default. -/
def convert_transcript_to_expansion_sig : PySignature :=
  { param_count := 3, default_count := 1 }

/-- `run_transcript_to_expansion` calls
`convert_transcript_to_expansion(transcript_path, expansion_path,
window_size, model)`: four positional arguments. -/
def expansion_call_arg_count : Nat := 4

/-- The coordinator's invocation of the expansion stage. -/
def coordinatorExpansionCall : CallOutcome :=
  pythonCallOutcome convert_transcript_to_expansion_sig expansion_call_arg_count

/-- Whether `main` runs or skips a stage:
`if check_file_exists(path): skip else: run`. -/
inductive StageAction
  | skip
  | runStage
deriving DecidableEq

/-- The skip-check of `main` for one stage. -/
def coordinatorAction (output_exists : Bool) : StageAction :=
  if output_exists then .skip else .runStage

/-- Number of Window Transformer invocations a stage performs under the
coordinator: zero when skipped, one call per window when run. -/
def coordinatorInvocations (output_exists : Bool) (windows : List Window) : Nat :=
  match coordinatorAction output_exists with
  | .skip => 0
  | .runStage => windows.length

theorem runWindows_append (T : Nat → String → String) (l₁ l₂ : List Nat) :
    ∀ s : DriverState, runWindows T (l₁ ++ l₂) s = runWindows T l₂ (runWindows T l₁ s) := by
  induction l₁ with
  | nil => intro s; rfl
  | cons i rest ih =>
    intro s
    simp only [List.cons_append, runWindows]
    exact ih _

theorem runWindows_out_parts (T : Nat → String → String) :
    ∀ (idxs : List Nat) (s : DriverState),
      (runWindows T idxs s).out_parts =
        s.out_parts ++ (resultsFrom T idxs s.prev_out).filter (fun r => !(pyStrip r == "")) := by
  intro idxs
  induction idxs with
  | nil => intro s; simp [runWindows, resultsFrom]
  | cons i rest ih =>
    intro s
    simp only [runWindows, resultsFrom, List.filter_cons]
    by_cases hr : pyStrip (T i s.prev_out) = ""
    · have hb : (!(pyStrip (T i s.prev_out) == "")) = false := by
        simp [hr]
      rw [ih]
      simp [stepResult, hr, hb]
    · have hb : (!(pyStrip (T i s.prev_out) == "")) = true := by
        simp [hr]
      rw [ih]
      simp [stepResult, hr, hb]

theorem runWindowsE_append {ε : Type} (T : Nat → String → Except ε String)
    (l₁ l₂ : List Nat) :
    ∀ s : DriverState, runWindowsE T (l₁ ++ l₂) s =
      match runWindowsE T l₁ s with
      | .error e => .error e
      | .ok s2 => runWindowsE T l₂ s2 := by
  induction l₁ with
  | nil => intro s; rfl
  | cons i rest ih =>
    intro s
    simp only [List.cons_append, runWindowsE]
    cases T i s.prev_out with
    | error e => rfl
    | ok r => exact ih _

/-- C1. For every window list and every Window Transformer, the stage's
final Output Document is exactly the realized transformer results whose
`strip()` is non-empty, kept in window order and joined by `"\n\n"` (one
blank line, no leading or trailing separator); a result that strips to
empty contributes nothing to the join. -/
theorem stageOutput_eq_filtered_join (T : Nat → String → String) (windows : List Window) :
    driveStage T windows =
      String.intercalate "\n\n"
        ((stageResults T windows).filter (fun r => !(pyStrip r == ""))) := by
  unfold driveStage stageResults
  rw [runWindows_out_parts]
  rfl

/-- C2 counterexample: a transformer returning `" x "` (non-empty after
trimming) leaves the continuity string equal to the raw `" x "`, not to
the trimmed `"x"` the claim requires. -/
theorem continuityState_not_trimmed :
    (runWindows (fun _ _ => " x ") [0] initState).prev_out = " x " ∧
      pyStrip " x " = "x" ∧
      (runWindows (fun _ _ => " x ") [0] initState).prev_out ≠ pyStrip " x " := by
  decide

/-- C2 (amended). After processing window `i` from any prior driver state,
the continuity string equals the raw (untrimmed) text the transformer
returned for window `i` when that text strips to non-empty, and the empty
sentinel `""` otherwise — regardless of the continuity value before `i`. -/
theorem continuityState_after_window (T : Nat → String → String)
    (idxs : List Nat) (i : Nat) (s : DriverState) :
    (runWindows T (idxs ++ [i]) s).prev_out =
      if pyStrip (T i (runWindows T idxs s).prev_out) = "" then ""
      else T i (runWindows T idxs s).prev_out := by
  rw [runWindows_append]
  simp only [runWindows, stepResult]
  split <;> rfl

/-- C3 counterexample: the claim quantifies over all non-negative window
sizes, but with `window_size = 0` and a one-line document the loop of
`split_into_windows` never advances its cursor, so no amount of fuel
completes it — the function does not terminate, let alone tile the
document. -/
theorem splitIntoWindows_zero_size_diverges :
    ¬ ∃ fuel w, splitLoop ["a"] 0 fuel 0 = some w := by
  rintro ⟨fuel, w, hw⟩
  rw [splitLoop_zero_none ["a"] fuel 0 (by decide)] at hw
  cases hw

/-- C3 (amended to positive window sizes). For every positive
`window_size` and every line list, `split_into_windows` terminates and its
windows tile the document: `ceil(L / window_size)` windows, none exactly
when the document is empty, each covering a non-empty in-range slice of at
most `window_size` lines, consecutive windows sharing their boundary, the
first starting at 0 and the last ending at `L`. -/
theorem splitIntoWindows_tiling (lines : List String) (window_size : Nat)
    (hw : 0 < window_size) :
    ∃ w, splitIntoWindows lines window_size = some w ∧
      w.length = (lines.length + window_size - 1) / window_size ∧
      (w = [] ↔ lines = []) ∧
      (∀ win ∈ w, win.start_idx < win.end_idx ∧ win.end_idx ≤ lines.length ∧
        win.window_lines.length = win.end_idx - win.start_idx ∧
        1 ≤ win.window_lines.length ∧ win.window_lines.length ≤ window_size) ∧
      (∀ p ∈ w.zip w.tail, (p.1).end_idx = (p.2).start_idx) ∧
      (∀ a ∈ w.head?, a.start_idx = 0) ∧
      (∀ a ∈ w.getLast?, a.end_idx = lines.length) := by
  refine ⟨windowsFrom lines window_size 0,
    splitIntoWindows_eq lines window_size hw, ?_, ?_, ?_, ?_, ?_, ?_⟩
  · rw [windowsFrom_length lines window_size hw lines.length 0 (by omega)]
    rw [Nat.sub_zero]
  · exact windowsFrom_eq_nil_iff lines window_size hw
  · intro win hmem
    obtain ⟨h1, h2, h3, h4⟩ :=
      windowsFrom_sizes lines window_size hw lines.length 0 (by omega) win hmem
    exact ⟨h1, h2, h3, by omega, h4⟩
  · exact tilesFrom_zip lines.length _ 0
      (windowsFrom_tiles lines window_size hw lines.length 0 (by omega) (by omega))
  · exact tilesFrom_head lines.length 0 _
      (windowsFrom_tiles lines window_size hw lines.length 0 (by omega) (by omega))
  · exact (tilesFrom_getLast lines.length _ 0
      (windowsFrom_tiles lines window_size hw lines.length 0 (by omega) (by omega))).1

/-- Witness for the amended C3 at a three-line document and window size 2. -/
theorem splitIntoWindows_tiling_witness :
    0 < 2 ∧
      ∃ w, splitIntoWindows ["a", "b", "c"] 2 = some w ∧
        w.length = ((["a", "b", "c"] : List String).length + 2 - 1) / 2 ∧
        (w = [] ↔ (["a", "b", "c"] : List String) = []) ∧
        (∀ win ∈ w, win.start_idx < win.end_idx ∧
          win.end_idx ≤ (["a", "b", "c"] : List String).length ∧
          win.window_lines.length = win.end_idx - win.start_idx ∧
          1 ≤ win.window_lines.length ∧ win.window_lines.length ≤ 2) ∧
        (∀ p ∈ w.zip w.tail, (p.1).end_idx = (p.2).start_idx) ∧
        (∀ a ∈ w.head?, a.start_idx = 0) ∧
        (∀ a ∈ w.getLast?, a.end_idx = (["a", "b", "c"] : List String).length) :=
  ⟨by decide, splitIntoWindows_tiling ["a", "b", "c"] 2 (by decide)⟩

/-- C4: the code performs no validation of `window_size`. With
`window_size = 0` and a non-empty document, `split_into_windows` makes no
progress and loops forever: no InvalidConfiguration (or any other) error
is raised, and the stage neither fails fast nor writes output. -/
theorem split_into_windows_no_validation :
    splitIntoWindows ["x", "y"] 0 = none ∧
      ¬ ∃ fuel w, splitLoop ["x", "y"] 0 fuel 0 = some w := by
  constructor
  · exact splitLoop_zero_none ["x", "y"] 3 0 (by decide)
  · rintro ⟨fuel, w, hw⟩
    rw [splitLoop_zero_none ["x", "y"] fuel 0 (by decide)] at hw
    cases hw

/-- C5: the expansion stage does not send the model the Pipeline
Coordinator configures for it. Its completion request hardcodes the model
identifier, which differs from `EXPANSION_MODEL`; the transcript stage, by
contrast, passes its configured model through. -/
theorem expansion_model_not_configured :
    expansionRequestModel ≠ EXPANSION_MODEL ∧
      expansionRequestModel = "anthropic/claude-haiku-4.5" ∧
      EXPANSION_MODEL = "moonshotai/kimi-k2-thinking" ∧
      transcriptRequestModel TRANSCRIPT_MODEL = TRANSCRIPT_MODEL := by
  refine ⟨by decide, rfl, rfl, rfl⟩

/-- C6: the coordinator's `run_transcript_to_expansion` passes four
positional arguments to `convert_transcript_to_expansion`, whose signature
accepts at most three, so Python raises `TypeError` at the call site, before
any statement of the stage body (file reading, completion calls) runs. -/
theorem coordinator_expansion_call_type_error :
    coordinatorExpansionCall = CallOutcome.typeError ∧
      convert_transcript_to_expansion_sig.param_count = 3 ∧
      expansion_call_arg_count = 4 := by
  decide

/-- C7. A stage writes its output document exactly at the end: if the
transformer raises at any window `i` reached by the run, the whole stage
evaluates to that error and nothing is written; and the stage yields an
output document only when every window's call returned, the document being
the join computed from the final loop state. -/
theorem stage_output_written_only_after_all_windows {ε : Type}
    (T : Nat → String → Except ε String) (windows : List Window) :
    (∀ (l₁ : List Nat) (i : Nat) (l₂ : List Nat) (s : DriverState) (e : ε),
        List.range windows.length = l₁ ++ i :: l₂ →
        runWindowsE T l₁ initState = .ok s →
        T i s.prev_out = .error e →
        stageRunE T windows = .error e) ∧
      (∀ out, stageRunE T windows = .ok out →
        ∃ s, runWindowsE T (List.range windows.length) initState = .ok s ∧
          out = String.intercalate "\n\n" s.out_parts) := by
  constructor
  · intro l₁ i l₂ s e hsplit hpre herr
    unfold stageRunE
    rw [hsplit, runWindowsE_append, hpre]
    simp only [runWindowsE, herr]
    rfl
  · intro out hout
    unfold stageRunE at hout
    cases hrun : runWindowsE T (List.range windows.length) initState with
    | error e =>
      rw [hrun] at hout
      cases hout
    | ok s =>
      rw [hrun] at hout
      refine ⟨s, rfl, ?_⟩
      cases hout
      rfl

/-- Witness for C7: a transformer that raises at window 0 of a one-window
stage makes the whole stage evaluate to that error. -/
theorem stage_abort_witness :
    stageRunE (fun _ _ => Except.error ()) ([⟨0, 1, ["a"]⟩] : List Window) =
      Except.error () :=
  (stage_output_written_only_after_all_windows (fun _ _ => Except.error ())
      ([⟨0, 1, ["a"]⟩] : List Window)).1
    [] 0 [] initState () rfl rfl rfl

/-- C9: when a stage's expected output file already exists, `main` takes
the skip branch and the stage performs zero Window Transformer
invocations, whatever its window list would have been. -/
theorem stage_skipped_when_output_exists (windows : List Window) :
    coordinatorAction true = StageAction.skip ∧
      coordinatorInvocations true windows = 0 :=
  ⟨rfl, rfl⟩

/-- C10: a zero-line document yields an empty window list, the stage loop
runs no iteration (so even an always-raising transformer is never
consulted), and the stage completes with the empty output document. -/
theorem empty_document_trivially_complete (window_size : Nat) {ε : Type}
    (T : Nat → String → Except ε String) :
    splitIntoWindows ([] : List String) window_size = some [] ∧
      stageRunE T ([] : List Window) = Except.ok "" :=
  ⟨rfl, rfl⟩

theorem stripTrailingBlankLines_dropLastIfEmpty (l : List String) :
    stripTrailingBlankLines (dropLastIfEmpty l) = stripTrailingBlankLines l := by
  rcases List.eq_nil_or_concat l with rfl | ⟨l2, a, rfl⟩
  · rfl
  · simp only [List.concat_eq_append]
    unfold dropLastIfEmpty
    by_cases ha : a = ""
    · subst ha
      rw [if_pos (by rw [List.getLast?_concat]), List.dropLast_concat]
      unfold stripTrailingBlankLines
      rw [List.reverse_concat, List.dropWhile_cons]
      have hp : (pyStrip "" == "") = true := by decide
      rw [hp]
      simp
    · rw [if_neg]
      rw [List.getLast?_concat]
      simp [ha]

/-- C8 counterexample: on a file whose content ends in a blank line, the
expansion stage pops the trailing blank before windowing, so its windows
concatenate to a strict prefix of the terminator-stripped lines of the
file (here `["a"]` against `["a", ""]` for content `"a\n\n"`). -/
theorem expansion_windows_miss_trailing_blank :
    mdLines "a\n\n" = ["a", ""] ∧
      expLines "a\n\n" = ["a"] ∧
      Option.map windowsLines (splitIntoWindows (expLines "a\n\n") 3) = some ["a"] ∧
      Option.map windowsLines (splitIntoWindows (expLines "a\n\n") 3) ≠
        some (mdLines "a\n\n") := by
  decide

/-- C8 (amended). For every positive window size the windows of each stage
concatenate exactly (no omission, no duplication) to the line list the
stage windows over: for the markdown stage the terminator-stripped lines
of the file, and for the expansion stage those same lines with trailing
whitespace-only lines removed. -/
theorem stage_windows_cover_working_lines (content : String) (window_size : Nat)
    (hw : 0 < window_size) :
    (∃ w, splitIntoWindows (mdLines content) window_size = some w ∧
        windowsLines w = mdLines content) ∧
      (∃ w, splitIntoWindows (expLines content) window_size = some w ∧
        windowsLines w = expLines content) ∧
      expLines content = stripTrailingBlankLines (mdLines content) := by
  refine ⟨⟨_, splitIntoWindows_eq _ _ hw, ?_⟩,
    ⟨_, splitIntoWindows_eq _ _ hw, ?_⟩, ?_⟩
  · rw [windowsFrom_flatten (mdLines content) window_size hw
      (mdLines content).length 0 (by omega)]
    exact List.drop_zero _
  · rw [windowsFrom_flatten (expLines content) window_size hw
      (expLines content).length 0 (by omega)]
    exact List.drop_zero _
  · unfold mdLines expLines
    rw [stripTrailingBlankLines_dropLastIfEmpty]

/-- Witness for the amended C8 at content `"a\n \nb\n"` and window size 2. -/
theorem stage_windows_cover_witness :
    0 < 2 ∧
      (∃ w, splitIntoWindows (mdLines "a\n \nb\n") 2 = some w ∧
        windowsLines w = mdLines "a\n \nb\n") ∧
      (∃ w, splitIntoWindows (expLines "a\n \nb\n") 2 = some w ∧
        windowsLines w = expLines "a\n \nb\n") ∧
      expLines "a\n \nb\n" = stripTrailingBlankLines (mdLines "a\n \nb\n") :=
  ⟨by decide, stage_windows_cover_working_lines "a\n \nb\n" 2 (by decide)⟩

end BasicPapers
